import Mathlib

/-!
Shallow embedding of the result-scraper frontend core
(`src/frontend/src/App.jsx`): the search filter, the sort comparator and
stable sort, the competition ranker, the SGPA tier classifier and the
distribution-chart normalizer of `AllStudentsTable` / `DistributionChart`,
together with theorems about them.
-/

namespace ResultScraper

/-- A JavaScript value appearing in a student record's `sgpa` field: the
backend delivers either a number or a string. -/
inductive JVal where
  | num (q : ℚ)
  | str (s : String)
deriving DecidableEq

/-- JS strict equality `===` on such values: true only for two values of the
same type that are equal (`"9.5" === 9.5` is `false`). -/
def jsStrictEq : JVal → JVal → Bool
  | .num a, .num b => a == b
  | .str a, .str b => a == b
  | _, _ => false

/-- Whether the value is a canonical JS number (not a string). -/
def JVal.isNum : JVal → Bool
  | .num _ => true
  | .str _ => false

/-- Numeric value of a list of decimal digit characters; `none` when the list
is empty or contains a non-digit. -/
def digitsToNat (cs : List Char) : Option Nat :=
  if cs ≠ [] ∧ cs.all Char.isDigit then
    some (cs.foldl (fun acc c => 10 * acc + (c.toNat - 48)) 0)
  else none

/-- Split a character list at every `'.'` (the splitting underlying
`String.split` on a dot, used to read a decimal literal). -/
def splitOnDot : List Char → List (List Char)
  | [] => [[]]
  | c :: t =>
    if c = '.' then [] :: splitOnDot t
    else
      match splitOnDot t with
      | [] => [[c]]
      | h :: r => (c :: h) :: r

/-- JS `Number(v)` coercion, with `none` standing for `NaN`. Numbers coerce to
themselves; the empty string coerces to `0`; strings of the decimal-literal
shapes `d+` and `d+.d+` (optionally with a leading minus) coerce to the exact
rational value of the literal; any other string is `NaN`. -/
def toNumber : JVal → Option ℚ
  | .num q => some q
  | .str s =>
    match s.data with
    | [] => some 0
    | c :: cs =>
      let sign : Int := if c = '-' then -1 else 1
      let body : List Char := if c = '-' then cs else c :: cs
      match splitOnDot body with
      | [ip] => (digitsToNat ip).map fun n => mkRat (sign * n) 1
      | [ip, fp] =>
        match digitsToNat ip, digitsToNat fp with
        | some n, some f =>
          some (mkRat (sign * (n * 10 ^ fp.length + f)) (10 ^ fp.length))
        | _, _ => none
      | _ => none

/-- A student record as consumed by `AllStudentsTable`. -/
structure Student where
  usn : String
  name : String
  sgpa : JVal
deriving DecidableEq

/-- A fallback record used only for out-of-bounds `List.getD` reads in theorem
statements (never reached at in-bounds indices). -/
def noStudent : Student := ⟨"", "", .num 0⟩

/-- A student record annotated with its computed rank; embeds the spread
`{ ...student, rank }`. -/
structure Ranked extends Student where
  rank : Nat
deriving DecidableEq

/-- Does the pattern occur at the head of the list? (The anchored matching
step underlying JS `String.includes`.) -/
def leadsWith : List Char → List Char → Bool
  | [], _ => true
  | _ :: _, [] => false
  | a :: as, b :: bs => a == b && leadsWith as bs

/-- Does the pattern occur as a contiguous run inside the list? -/
def occursIn (pat l : List Char) : Bool :=
  match l with
  | [] => pat.isEmpty
  | _ :: t => leadsWith pat l || occursIn pat t

/-- JS `s.toLowerCase()` (character-wise case folding, taken on the
character list of the string). -/
def lowerChars (s : String) : List Char :=
  s.data.map Char.toLower

/-- JS `hay.includes(needle)`: substring containment. -/
def jsIncludes (hay needle : List Char) : Bool :=
  occursIn needle hay

/-- The `filtered` list of `AllStudentsTable`: records whose `usn` or `name`
contains the search term, case-insensitively (`.toLowerCase().includes(...)`). -/
def filteredStudents (students : List Student) (searchTerm : String) : List Student :=
  students.filter fun s =>
    jsIncludes (lowerChars s.usn) (lowerChars searchTerm) ||
      jsIncludes (lowerChars s.name) (lowerChars searchTerm)

/-- The active sort column (`sortBy`). -/
inductive SortKey where
  | usn
  | name
  | sgpa
deriving DecidableEq

/-- The active sort direction (`sortOrder`). -/
inductive SortOrder where
  | asc
  | desc
deriving DecidableEq

/-- Field access `a[sortBy]`. -/
def fieldVal (key : SortKey) (s : Student) : JVal :=
  match key with
  | .usn => .str s.usn
  | .name => .str s.name
  | .sgpa => s.sgpa

/-- JS `String(v)` as applied to `usn` / `name` values. (Those fields are
strings, so the number branch is unreachable in the comparator; it is rendered
decimally for totality.) -/
def jsToString : JVal → String
  | .str s => s
  | .num q => toString q

/-- JS `<` on two `Number`-coerced values; every comparison involving `NaN`
is false. -/
def numLtB : Option ℚ → Option ℚ → Bool
  | some a, some b => a < b
  | _, _ => false

/-- JS `<` on strings: lexicographic comparison of the character sequences
(code-unit order). -/
def strLtB : List Char → List Char → Bool
  | [], [] => false
  | [], _ :: _ => true
  | _ :: _, [] => false
  | a :: as, b :: bs => if a < b then true else if b < a then false else strLtB as bs

/-- The comparator passed to `.sort` in `AllStudentsTable`: for the `sgpa` key
both values are coerced with `Number(...)`, otherwise both are coerced to
lowercased strings; ascending order returns `aVal > bVal ? 1 : aVal < bVal ?
-1 : 0`, descending the mirror image. -/
def jsCompare (sortBy : SortKey) (sortOrder : SortOrder) (a b : Student) : Int :=
  if sortBy = .sgpa then
    let aVal := toNumber (fieldVal sortBy a)
    let bVal := toNumber (fieldVal sortBy b)
    match sortOrder with
    | .asc => if numLtB bVal aVal then 1 else if numLtB aVal bVal then -1 else 0
    | .desc => if numLtB aVal bVal then 1 else if numLtB bVal aVal then -1 else 0
  else
    let aVal := lowerChars (jsToString (fieldVal sortBy a))
    let bVal := lowerChars (jsToString (fieldVal sortBy b))
    match sortOrder with
    | .asc => if strLtB bVal aVal then 1 else if strLtB aVal bVal then -1 else 0
    | .desc => if strLtB aVal bVal then 1 else if strLtB bVal aVal then -1 else 0

/-- The comparator as the keep-in-order test consumed by a stable sort: keep
`a` before `b` exactly when the comparator does not order `b` strictly
first. -/
def cmpLe (sortBy : SortKey) (sortOrder : SortOrder) (a b : Student) : Bool :=
  jsCompare sortBy sortOrder a b ≤ 0

/-- The `sorted` list: `[...filtered].sort(comparator)`. `Array.prototype.sort`
is required by the language specification to be stable, embedded here as the
stable `List.mergeSort`. -/
def sortedStudents (sortBy : SortKey) (sortOrder : SortOrder) (l : List Student) : List Student :=
  l.mergeSort (cmpLe sortBy sortOrder)

/-- ECMA-262's "consistent comparison function" requirement, as it applies to
the table's comparator on the records of `l`: comparison signs are
antisymmetric, and the induced strict order and equivalence are transitive.
`Array.prototype.sort` guarantees a sorted, stable outcome only under this
condition. -/
@[reducible]
def consistentComparator (sortBy : SortKey) (sortOrder : SortOrder) (l : List Student) : Prop :=
  (∀ a ∈ l, ∀ b ∈ l,
    (jsCompare sortBy sortOrder a b < 0 ↔ 0 < jsCompare sortBy sortOrder b a) ∧
    (jsCompare sortBy sortOrder a b = 0 ↔ jsCompare sortBy sortOrder b a = 0)) ∧
  ∀ a ∈ l, ∀ b ∈ l, ∀ c ∈ l,
    (jsCompare sortBy sortOrder a b < 0 → jsCompare sortBy sortOrder b c < 0 →
      jsCompare sortBy sortOrder a c < 0) ∧
    (jsCompare sortBy sortOrder a b = 0 → jsCompare sortBy sortOrder b c = 0 →
      jsCompare sortBy sortOrder a c = 0)

/-- Outcomes the `Array.prototype.sort` contract permits for
`[...filtered].sort(comparator)`: when the comparator is consistent on the
list, the stable sorted order `sortedStudents`; when it is not, ECMA-262
makes the sort order implementation-defined, so any permutation of the input
is a permitted outcome. -/
def jsSortOutcomes (sortBy : SortKey) (sortOrder : SortOrder) (l out : List Student) : Prop :=
  (consistentComparator sortBy sortOrder l ∧ out = sortedStudents sortBy sortOrder l) ∨
  (¬ consistentComparator sortBy sortOrder l ∧ out.Perm l)

/-- Rank assigned at `index` to `student` over the sorted view: `index + 1`,
except that when the predecessor's `sgpa` is strictly equal (`===`) to the
student's, the rank is `(first index whose sgpa is strictly equal) + 1`.
(JS `findIndex` returns `-1` when no match exists while `List.findIdx` returns
the length; the student itself matches, so that case is unreachable.) -/
def rankAt (sorted : List Student) (index : Nat) (student : Student) : Nat :=
  if 0 < index then
    match sorted.get? (index - 1) with
    | some prev =>
      if jsStrictEq prev.sgpa student.sgpa then
        sorted.findIdx (fun s => jsStrictEq s.sgpa student.sgpa) + 1
      else index + 1
    | none => index + 1
  else index + 1

/-- The `rankedStudents` computation: map each record of the sorted view to
itself extended with its rank. -/
def rankedStudents (sorted : List Student) : List Ranked :=
  sorted.enum.map fun p => { toStudent := p.2, rank := rankAt sorted p.1 p.2 }

/-- The rank column of the ranked view. -/
def rankListOf (sorted : List Student) : List Nat :=
  (rankedStudents sorted).map Ranked.rank

/-- The numeric score of a record (`0` for a non-coercible score; only used
under an all-numeric hypothesis). -/
def nscore (s : Student) : ℚ :=
  (toNumber s.sgpa).getD 0

/-- JS `v >= q` where `q` is a number: coerce `v` with `Number`; false when
the coercion yields `NaN`. -/
def jsGeNum (v : JVal) (q : ℚ) : Bool :=
  match toNumber v with
  | some a => q ≤ a
  | none => false

/-- The `getSGPAColor` tier classifier. -/
def getSGPAColor (sgpa : JVal) : String :=
  if jsGeNum sgpa 9 then "sgpa-excellent"
  else if jsGeNum sgpa 8 then "sgpa-great"
  else if jsGeNum sgpa 7 then "sgpa-good"
  else if jsGeNum sgpa 6 then "sgpa-average"
  else "sgpa-low"

/-- Rendered output of `DistributionChart`: either the "No distribution data."
placeholder or one row `(label, width percent, count)` per bucket. -/
inductive ChartOutput where
  | noData
  | chart (rows : List (String × ℚ × Nat))
deriving DecidableEq

/-- The rows of a chart output (empty for the placeholder). -/
def chartRows : ChartOutput → List (String × ℚ × Nat)
  | .noData => []
  | .chart rows => rows

/-- `Math.max(...entries.map(([, v]) => v))` over the bucket counts (the
entries list is nonempty wherever this is consumed). -/
def maxOfCounts (entries : List (String × Nat)) : Nat :=
  entries.foldr (fun p m => max p.2 m) 0

/-- `Math.max(...) || 1`: the divisor actually used for widths. -/
def maxCountOf (entries : List (String × Nat)) : ℚ :=
  if maxOfCounts entries = 0 then 1 else (maxOfCounts entries : ℚ)

/-- `DistributionChart`: an empty bucket map renders the placeholder;
otherwise each bucket gets width `(count / maxCount) * 100`, replaced by `5`
when that value is `0` (the `|| 5` fallback on the falsy width). -/
def DistributionChart (distribution : List (String × Nat)) : ChartOutput :=
  if distribution.isEmpty then .noData
  else
    .chart (distribution.map fun p =>
      let w : ℚ := ((p.2 : ℚ) / maxCountOf distribution) * 100
      (p.1, if w = 0 then 5 else w, p.2))

/-- Every record's score is a canonical JS number. (The spec's data model
declares `score` a numeric scalar.) -/
@[reducible]
def allNumScores (l : List Student) : Prop :=
  ∀ s ∈ l, s.sgpa.isNum = true

/-- Every record's score coerces to a number (`Number(...)` is not `NaN`);
numeric strings such as `"9.5"` qualify. -/
@[reducible]
def allCoercibleScores (l : List Student) : Prop :=
  ∀ s ∈ l, (toNumber s.sgpa).isSome = true

/-- The list is sorted by numeric score, descending. -/
@[reducible]
def scoreSortedDesc (l : List Student) : Prop :=
  l.Pairwise fun a b => nscore b ≤ nscore a

/-- A record whose score fails numeric coercion (`Number(...)` is `NaN`). -/
def nonCoercible (s : Student) : Bool :=
  (toNumber s.sgpa).isNone

/-- All non-coercible records sit at one consistent extreme: the list is the
non-coercible records followed by the coercible ones, or the reverse, each
block in input order. -/
def extremePlacement (l : List Student) : Prop :=
  l = l.filter nonCoercible ++ l.filter (fun s => ! nonCoercible s) ∨
  l = l.filter (fun s => ! nonCoercible s) ++ l.filter nonCoercible

/-- Scores 9.5, 9.5, 9.0, 8.0 (descending), from the spec's ranking law. -/
def exRanks951 : List Student :=
  [⟨"u1", "a", .num (mkRat 19 2)⟩, ⟨"u2", "b", .num (mkRat 19 2)⟩,
   ⟨"u3", "c", .num 9⟩, ⟨"u4", "d", .num 8⟩]

/-- Scores 7.0, 7.0, 7.0, from the spec's ranking law. -/
def exRanks700 : List Student :=
  [⟨"u1", "a", .num 7⟩, ⟨"u2", "b", .num 7⟩, ⟨"u3", "c", .num 7⟩]

/-- A single record with score 9.0, from the spec's ranking law. -/
def exRanks900 : List Student :=
  [⟨"u1", "a", .num 9⟩]

/-- Records whose names are already ascending while their scores are 9, 8, 9,
9: a name-sorted view on which ranks are not monotone. -/
def exC3 : List Student :=
  [⟨"u1", "a", .num 9⟩, ⟨"u2", "b", .num 8⟩, ⟨"u3", "c", .num 9⟩, ⟨"u4", "d", .num 9⟩]

/-- Two records with score 9.5 in score-descending order: apply the amended
monotonicity statement to them. -/
def exW3 : List Student :=
  [⟨"u1", "a", .num (mkRat 19 2)⟩, ⟨"u2", "b", .num (mkRat 19 2)⟩, ⟨"u3", "c", .num 9⟩]

/-- Two records carrying the same canonical numeric score 9.5, one as the
string `"9.5"` and one as the number 9.5. -/
def exC4 : List Student :=
  [⟨"u1", "a", .str "9.5"⟩, ⟨"u2", "b", .num (mkRat 19 2)⟩]

/-- Two records tied at numeric score 7. -/
def exW4 : List Student :=
  [⟨"u1", "a", .num 7⟩, ⟨"u2", "b", .num 7⟩]

/-- A record list with a non-coercible score between two coercible ones,
already in descending coercible order. -/
def exC2 : List Student :=
  [⟨"u1", "a", .num 9⟩, ⟨"u2", "b", .str "abc"⟩, ⟨"u3", "c", .num 5⟩]

/-- A record whose score fails numeric coercion. -/
def wC2a : Student := ⟨"x1", "x", .str "n/a"⟩

/-- A record with a plain numeric score. -/
def wC2b : Student := ⟨"y1", "y", .num 9⟩

/-- Score 5 record of the stability counterexample. -/
def stuN5 : Student := ⟨"u5", "e", .num 5⟩

/-- Non-coercible-score record of the stability counterexample. -/
def stuNaN : Student := ⟨"uN", "f", .str "abc"⟩

/-- Score 9 record of the stability counterexample. -/
def stuN9 : Student := ⟨"u9", "g", .num 9⟩

/-- The stability counterexample list: scores 5, `"abc"`, 9. -/
def exC6 : List Student := [stuN5, stuNaN, stuN9]

/-- Two records equal under the usn comparator (same usn up to case). -/
def wStA : Student := ⟨"1DS23CS001", "Amy", .num 9⟩

/-- Second record with the case-folded-equal usn. -/
def wStB : Student := ⟨"1ds23cs001", "Bea", .num 8⟩

/-- A third record with a larger usn. -/
def wStC : Student := ⟨"1DS23CS999", "Cal", .num 7⟩

/-- The bucket map of the spec's distribution-normalization example. -/
def exD7 : List (String × Nat) := [("A", 0), ("B", 4), ("C", 2)]

/-- A bucket map whose smallest nonzero count is far below the maximum. -/
def exD7bad : List (String × Nat) := [("A", 1), ("B", 1000)]

/-!  Helper lemmas shared by the claim theorems. -/

lemma numLtB_none_left (y : Option ℚ) : numLtB none y = false := by
  cases y <;> rfl

lemma numLtB_none_right (x : Option ℚ) : numLtB x none = false := by
  cases x <;> rfl

lemma jsIncludes_nil (cs : List Char) : jsIncludes cs [] = true := by
  cases cs <;> simp [jsIncludes, occursIn, leadsWith]

lemma one_le_maxCountOf (d : List (String × Nat)) : (1 : ℚ) ≤ maxCountOf d := by
  unfold maxCountOf
  split
  · exact le_refl 1
  · rename_i h
    exact_mod_cast Nat.one_le_iff_ne_zero.mpr h

/-- Claim C10: ranking only annotates: mapping each ranked record back to its
underlying student returns the sorted input unchanged (same length, same
`usn`, `name`, `sgpa` at every position, no reordering, no mutation). -/
theorem C10_rank_preserves_records (l : List Student) :
    (rankedStudents l).map Ranked.toStudent = l ∧
    (rankedStudents l).length = l.length := by
  have h : (rankedStudents l).map Ranked.toStudent = l := by
    unfold rankedStudents
    rw [List.map_map]
    exact List.enum_map_snd l
  exact ⟨h, by simp [rankedStudents, List.enum_length]⟩

/-- Claim C9: an empty bucket map renders the empty-chart placeholder, and the
divisor used for widths is always at least 1, so no division by zero can
occur. -/
theorem C9_empty_distribution :
    DistributionChart [] = ChartOutput.noData ∧
    ∀ d : List (String × Nat), (1 : ℚ) ≤ maxCountOf d :=
  ⟨rfl, one_le_maxCountOf⟩

/-- Claim C5: the filtered view is a subsequence of the input (order
preserved); a record is kept exactly when the query occurs case-insensitively
inside its usn or its name; the empty query keeps everything. -/
theorem C5_search_filter (students : List Student) (q : String) :
    (filteredStudents students q).Sublist students ∧
    (∀ s : Student, s ∈ filteredStudents students q ↔
      s ∈ students ∧
        (jsIncludes (lowerChars s.usn) (lowerChars q) ||
          jsIncludes (lowerChars s.name) (lowerChars q)) = true) ∧
    filteredStudents students "" = students := by
  refine ⟨List.filter_sublist _, fun s => List.mem_filter, ?_⟩
  unfold filteredStudents
  apply List.filter_eq_self.mpr
  intro s _
  have h : lowerChars "" = [] := rfl
  rw [h, jsIncludes_nil, jsIncludes_nil]
  rfl

/-- Claim C2 (amended): a record whose score fails numeric coercion compares
equal (comparator value 0) to every record, in both argument orders; under the
stable sort it therefore keeps its input-relative position instead of moving
to an extreme. -/
theorem C2_noncoercible_comparator (ord : SortOrder) (a b : Student)
    (h : toNumber a.sgpa = none) :
    jsCompare .sgpa ord a b = 0 ∧ jsCompare .sgpa ord b a = 0 := by
  cases ord <;>
    simp [jsCompare, fieldVal, h, numLtB_none_left, numLtB_none_right]

/-- Witness for C2: the comparator at a concrete non-coercible record. -/
theorem C2_noncoercible_comparator_witness :
    jsCompare .sgpa .desc wC2a wC2b = 0 ∧ jsCompare .sgpa .desc wC2b wC2a = 0 :=
  C2_noncoercible_comparator .desc wC2a wC2b (by decide)

/-- Counterexample for C2 as stated: sorting scores 9, `"abc"`, 5 descending
leaves the non-coercible record strictly between the two coercible ones, at
neither extreme. -/
theorem C2_counterexample :
    sortedStudents .sgpa .desc exC2 = exC2 ∧
    nonCoercible (⟨"u2", "b", .str "abc"⟩ : Student) = true ∧
    ¬ extremePlacement (sortedStudents .sgpa .desc exC2) := by
  have hs : sortedStudents .sgpa .desc exC2 = exC2 :=
    List.mergeSort_of_sorted (by decide)
  refine ⟨hs, by decide, ?_⟩
  rw [hs]
  unfold extremePlacement
  decide

/-- Evaluation of the tier classifier on a numeric score as a chain of
threshold tests. -/
lemma getSGPAColor_num (q : ℚ) :
    getSGPAColor (.num q) =
      if 9 ≤ q then "sgpa-excellent"
      else if 8 ≤ q then "sgpa-great"
      else if 7 ≤ q then "sgpa-good"
      else if 6 ≤ q then "sgpa-average"
      else "sgpa-low" := by
  unfold getSGPAColor
  simp only [show ∀ t : ℚ, jsGeNum (.num q) t = decide (t ≤ q) from fun t => rfl,
    decide_eq_true_eq]

/-- Claim C8: the tier classifier returns each tier exactly on its half-open
score band, boundaries inclusive below; in particular 9.0 is excellent, 8.999
great, 6.0 average, 5.999 low. (The rendered tier strings carry the `sgpa-`
class route of the source.) -/
theorem C8_tier_classifier :
    (∀ q : ℚ,
      (getSGPAColor (.num q) = "sgpa-excellent" ↔ 9 ≤ q) ∧
      (getSGPAColor (.num q) = "sgpa-great" ↔ 8 ≤ q ∧ q < 9) ∧
      (getSGPAColor (.num q) = "sgpa-good" ↔ 7 ≤ q ∧ q < 8) ∧
      (getSGPAColor (.num q) = "sgpa-average" ↔ 6 ≤ q ∧ q < 7) ∧
      (getSGPAColor (.num q) = "sgpa-low" ↔ q < 6)) ∧
    getSGPAColor (.num 9) = "sgpa-excellent" ∧
    getSGPAColor (.num (mkRat 8999 1000)) = "sgpa-great" ∧
    getSGPAColor (.num 6) = "sgpa-average" ∧
    getSGPAColor (.num (mkRat 5999 1000)) = "sgpa-low" := by
  refine ⟨fun q => ?_, by decide, by decide, by decide, by decide⟩
  rw [getSGPAColor_num]
  rcases le_or_lt 9 q with h9 | h9
  · rw [if_pos h9]
    exact ⟨⟨fun _ => h9, fun _ => rfl⟩,
      ⟨fun hx => absurd hx (by decide), fun hx => absurd h9 (not_le.mpr hx.2)⟩,
      ⟨fun hx => absurd hx (by decide),
        fun hx => absurd h9 (not_le.mpr (hx.2.trans (by norm_num)))⟩,
      ⟨fun hx => absurd hx (by decide),
        fun hx => absurd h9 (not_le.mpr (hx.2.trans (by norm_num)))⟩,
      ⟨fun hx => absurd hx (by decide),
        fun hx => absurd h9 (not_le.mpr (hx.trans (by norm_num)))⟩⟩
  · rw [if_neg (not_le.mpr h9)]
    rcases le_or_lt 8 q with h8 | h8
    · rw [if_pos h8]
      exact ⟨⟨fun hx => absurd hx (by decide), fun hx => absurd hx (not_le.mpr h9)⟩,
        ⟨fun _ => ⟨h8, h9⟩, fun _ => rfl⟩,
        ⟨fun hx => absurd hx (by decide), fun hx => absurd h8 (not_le.mpr hx.2)⟩,
        ⟨fun hx => absurd hx (by decide),
          fun hx => absurd h8 (not_le.mpr (hx.2.trans (by norm_num)))⟩,
        ⟨fun hx => absurd hx (by decide),
          fun hx => absurd h8 (not_le.mpr (hx.trans (by norm_num)))⟩⟩
    · rw [if_neg (not_le.mpr h8)]
      rcases le_or_lt 7 q with h7 | h7
      · rw [if_pos h7]
        exact ⟨⟨fun hx => absurd hx (by decide), fun hx => absurd hx (not_le.mpr h9)⟩,
          ⟨fun hx => absurd hx (by decide), fun hx => absurd hx.1 (not_le.mpr h8)⟩,
          ⟨fun _ => ⟨h7, h8⟩, fun _ => rfl⟩,
          ⟨fun hx => absurd hx (by decide), fun hx => absurd h7 (not_le.mpr hx.2)⟩,
          ⟨fun hx => absurd hx (by decide),
            fun hx => absurd h7 (not_le.mpr (hx.trans (by norm_num)))⟩⟩
      · rw [if_neg (not_le.mpr h7)]
        rcases le_or_lt 6 q with h6 | h6
        · rw [if_pos h6]
          exact ⟨⟨fun hx => absurd hx (by decide), fun hx => absurd hx (not_le.mpr h9)⟩,
            ⟨fun hx => absurd hx (by decide), fun hx => absurd hx.1 (not_le.mpr h8)⟩,
            ⟨fun hx => absurd hx (by decide), fun hx => absurd hx.1 (not_le.mpr h7)⟩,
            ⟨fun _ => ⟨h6, h7⟩, fun _ => rfl⟩,
            ⟨fun hx => absurd hx (by decide), fun hx => absurd h6 (not_le.mpr hx)⟩⟩
        · rw [if_neg (not_le.mpr h6)]
          exact ⟨⟨fun hx => absurd hx (by decide), fun hx => absurd hx (not_le.mpr h9)⟩,
            ⟨fun hx => absurd hx (by decide), fun hx => absurd hx.1 (not_le.mpr h8)⟩,
            ⟨fun hx => absurd hx (by decide), fun hx => absurd hx.1 (not_le.mpr h7)⟩,
            ⟨fun hx => absurd hx (by decide), fun hx => absurd hx.1 (not_le.mpr h6)⟩,
            ⟨fun _ => h6, fun _ => rfl⟩⟩

lemma snd_le_maxOfCounts (d : List (String × Nat)) (p : String × Nat) (hp : p ∈ d) :
    p.2 ≤ maxOfCounts d := by
  induction d with
  | nil => cases hp
  | cons q t ih =>
    simp only [maxOfCounts, List.foldr_cons] at *
    rcases List.mem_cons.mp hp with rfl | hp
    · exact le_max_left _ _
    · exact le_trans (ih hp) (le_max_right _ _)

lemma maxCountOf_ne_zero (d : List (String × Nat)) : maxCountOf d ≠ 0 := by
  have h := one_le_maxCountOf d
  intro h0
  rw [h0] at h
  norm_num at h

lemma width_eq_zero_iff (d : List (String × Nat)) (c : Nat) :
    ((c : ℚ) / maxCountOf d) * 100 = 0 ↔ c = 0 := by
  rw [mul_eq_zero, div_eq_zero_iff]
  simp [maxCountOf_ne_zero d]

lemma DistributionChart_rows (d : List (String × Nat)) (hd : d ≠ []) :
    DistributionChart d = ChartOutput.chart (d.map fun p =>
      (p.1,
        if ((p.2 : ℚ) / maxCountOf d) * 100 = 0 then (5 : ℚ)
        else ((p.2 : ℚ) / maxCountOf d) * 100,
        p.2)) := by
  unfold DistributionChart
  rw [if_neg (by simpa [List.isEmpty_iff] using hd)]

/-- Claim C7 (amended): each bucket is rendered at width
`(count / maxCount) * 100`, with zero-count buckets floored at 5%; every
rendered width lies in the half-open range (0%, 100%] (widths below 5% do
occur for small nonzero counts); the example buckets 0, 4, 2 render at
5%, 100%, 50%. -/
theorem C7_distribution_normalizer :
    (∀ d : List (String × Nat), d ≠ [] →
      DistributionChart d = ChartOutput.chart (d.map fun p =>
        (p.1,
          if p.2 = 0 then (5 : ℚ) else ((p.2 : ℚ) / maxCountOf d) * 100,
          p.2))) ∧
    (∀ d : List (String × Nat), ∀ r ∈ chartRows (DistributionChart d),
      0 < r.2.1 ∧ r.2.1 ≤ 100) ∧
    DistributionChart exD7 = ChartOutput.chart [("A", 5, 0), ("B", 100, 4), ("C", 50, 2)] := by
  refine ⟨?_, ?_, ?_⟩
  · intro d hd
    rw [DistributionChart_rows d hd]
    congr 1
    apply List.map_congr_left
    intro p _
    exact congrArg (fun w => (p.1, w, p.2)) (if_congr (width_eq_zero_iff d p.2) rfl rfl)
  · intro d r hr
    by_cases hd : d = []
    · subst hd
      simp [DistributionChart, chartRows] at hr
    · rw [DistributionChart_rows d hd] at hr
      simp only [chartRows] at hr
      obtain ⟨p, hp, rfl⟩ := List.mem_map.mp hr
      have hM1 : (1 : ℚ) ≤ maxCountOf d := one_le_maxCountOf d
      have hM0 : (0 : ℚ) < maxCountOf d := lt_of_lt_of_le one_pos hM1
      by_cases hw : ((p.2 : ℚ) / maxCountOf d) * 100 = 0
      · rw [if_pos hw]
        norm_num
      · rw [if_neg hw]
        constructor
        · have hnn : 0 ≤ ((p.2 : ℚ) / maxCountOf d) * 100 := by positivity
          exact lt_of_le_of_ne hnn (Ne.symm hw)
        · have hc0 : p.2 ≠ 0 := fun h => hw ((width_eq_zero_iff d p.2).mpr h)
          have hle : p.2 ≤ maxOfCounts d := snd_le_maxOfCounts d p hp
          have hMn : maxOfCounts d ≠ 0 := by omega
          have hMeq : maxCountOf d = (maxOfCounts d : ℚ) := by
            unfold maxCountOf
            rw [if_neg hMn]
          have hdiv : ((p.2 : ℚ) / maxCountOf d) ≤ 1 := by
            rw [div_le_one hM0, hMeq]
            exact_mod_cast hle
          calc ((p.2 : ℚ) / maxCountOf d) * 100 ≤ 1 * 100 :=
                mul_le_mul_of_nonneg_right hdiv (by norm_num)
            _ = 100 := by norm_num
  · have hmax : maxCountOf exD7 = 4 := by
      unfold maxCountOf
      rw [show maxOfCounts exD7 = 4 from by decide]
      norm_num
    rw [DistributionChart_rows exD7 (by decide)]
    rw [hmax]
    norm_num [exD7]

/-- Counterexample for C7 as stated: with counts 1 and 1000 the first bucket
renders at width 0.1%, outside the claimed range [5%, 100%]. -/
theorem C7_counterexample :
    DistributionChart exD7bad =
      ChartOutput.chart [("A", (1 : ℚ) / 10, 1), ("B", 100, 1000)] ∧
    (1 : ℚ) / 10 < 5 := by
  constructor
  · have hmax : maxCountOf exD7bad = 1000 := by
      unfold maxCountOf
      rw [show maxOfCounts exD7bad = 1000 from by decide]
      norm_num
    rw [DistributionChart_rows exD7bad (by decide)]
    rw [hmax]
    norm_num [exD7bad]
  · norm_num

/-- Witness for C7: the amended width formula applied to the example buckets. -/
theorem C7_distribution_normalizer_witness :
    DistributionChart exD7 = ChartOutput.chart (exD7.map fun p =>
      (p.1,
        if p.2 = 0 then (5 : ℚ) else ((p.2 : ℚ) / maxCountOf exD7) * 100,
        p.2)) :=
  C7_distribution_normalizer.1 exD7 (by decide)

lemma rankListOf_getD (l : List Student) (i : Nat) (hi : i < l.length) :
    (rankListOf l).getD i 0 = rankAt l i l[i] := by
  have hlen : i < (rankListOf l).length := by
    simp [rankListOf, rankedStudents, List.enum_length, hi]
  rw [List.getD_eq_getElem _ _ hlen]
  simp only [rankListOf, rankedStudents, List.getElem_map, List.getElem_enum]

lemma jsStrictEq_num_iff {s t : Student} (hs : s.sgpa.isNum = true) (ht : t.sgpa.isNum = true) :
    jsStrictEq s.sgpa t.sgpa = (nscore s == nscore t) := by
  rcases hS : s.sgpa with a | a
  · rcases hT : t.sgpa with b | b
    · simp [jsStrictEq, nscore, hS, hT, toNumber]
    · rw [hT] at ht
      simp [JVal.isNum] at ht
  · rw [hS] at hs
    simp [JVal.isNum] at hs

lemma findIdx_congr_mem {p q : Student → Bool} :
    ∀ {l : List Student}, (∀ x ∈ l, p x = q x) → l.findIdx p = l.findIdx q
  | [], _ => rfl
  | x :: xs, h => by
    rw [List.findIdx_cons, List.findIdx_cons, h x (List.mem_cons_self x xs),
      findIdx_congr_mem fun y hy => h y (List.mem_cons_of_mem x hy)]

lemma findIdx_beq_eq_countP (v : ℚ) :
    ∀ (l : List Student), l.Pairwise (fun a b => nscore b ≤ nscore a) →
      (∃ y ∈ l, nscore y = v) →
      (l.findIdx fun s => nscore s == v) = l.countP fun s => decide (v < nscore s)
  | [], _, hv => by simp at hv
  | x :: xs, hs, hv => by
    rw [List.pairwise_cons] at hs
    rw [List.findIdx_cons, List.countP_cons]
    by_cases hxv : nscore x = v
    · have hzero : (xs.countP fun s => decide (v < nscore s)) = 0 :=
        List.countP_eq_zero.mpr fun y hy => by
          simp only [decide_eq_true_eq, not_lt]
          exact hxv ▸ hs.1 y hy
      rw [show (nscore x == v) = true from beq_iff_eq.mpr hxv]
      simp [hzero, hxv]
    · obtain ⟨y, hy, hyv⟩ := hv
      have hy' : y ∈ xs := by
        rcases List.mem_cons.mp hy with rfl | h
        · exact absurd hyv hxv
        · exact h
      have hxgt : v < nscore x := lt_of_le_of_ne (hyv ▸ hs.1 y hy') (Ne.symm hxv)
      rw [show (nscore x == v) = false from beq_eq_false_iff_ne.mpr hxv]
      rw [findIdx_beq_eq_countP v xs hs.2 ⟨y, hy', hyv⟩]
      simp [hxgt]

lemma countP_drop_zero (l : List Student)
    (hs : l.Pairwise fun a b => nscore b ≤ nscore a) (i : Nat) (hi : i < l.length) :
    ((l.drop i).countP fun s => decide (nscore l[i] < nscore s)) = 0 := by
  apply List.countP_eq_zero.mpr
  intro y hy
  obtain ⟨j, hj, rfl⟩ := List.mem_iff_getElem.mp hy
  have hjlen : i + j < l.length := by
    have h2 := hj
    rw [List.length_drop] at h2
    omega
  rw [List.getElem_drop]
  simp only [decide_eq_true_eq, not_lt]
  rcases Nat.eq_zero_or_pos j with rfl | hj0
  · simp
  · exact List.pairwise_iff_getElem.mp hs i (i + j) hi hjlen (by omega)

lemma countP_gt_le_idx (l : List Student)
    (hs : l.Pairwise fun a b => nscore b ≤ nscore a) (i : Nat) (hi : i < l.length) :
    (l.countP fun s => decide (nscore l[i] < nscore s)) ≤ i := by
  have hsplit : (l.countP fun s => decide (nscore l[i] < nscore s)) =
      ((l.take i).countP fun s => decide (nscore l[i] < nscore s)) +
        ((l.drop i).countP fun s => decide (nscore l[i] < nscore s)) := by
    rw [← List.countP_append, List.take_append_drop]
  have hdrop := countP_drop_zero l hs i hi
  have htake : ((l.take i).countP fun s => decide (nscore l[i] < nscore s)) ≤ i :=
    le_trans (List.countP_le_length _) (by rw [List.length_take]; omega)
  omega

lemma countP_gt_eq_idx (l : List Student)
    (hs : l.Pairwise fun a b => nscore b ≤ nscore a) (i : Nat) (hi : i < l.length)
    (hgt : ∀ (j : Nat) (hj : j < i), nscore l[i] < nscore l[j]) :
    (l.countP fun s => decide (nscore l[i] < nscore s)) = i := by
  have hsplit : (l.countP fun s => decide (nscore l[i] < nscore s)) =
      ((l.take i).countP fun s => decide (nscore l[i] < nscore s)) +
        ((l.drop i).countP fun s => decide (nscore l[i] < nscore s)) := by
    rw [← List.countP_append, List.take_append_drop]
  have hdrop := countP_drop_zero l hs i hi
  have htake : ((l.take i).countP fun s => decide (nscore l[i] < nscore s)) =
      (l.take i).length := by
    apply List.countP_eq_length.mpr
    intro y hy
    obtain ⟨j, hj, rfl⟩ := List.mem_iff_getElem.mp hy
    have hjlt : j < i := by
      have h2 := hj
      rw [List.length_take] at h2
      omega
    rw [List.getElem_take]
    simp only [decide_eq_true_eq]
    exact hgt j hjlt
  rw [hsplit, hdrop, htake, List.length_take]
  omega

lemma rankAt_eq_rule (l : List Student) (hnum : allNumScores l) (i : Nat) (hi : i < l.length) :
    rankAt l i l[i] =
      if 0 < i ∧ nscore l[i - 1] = nscore l[i]
      then (l.findIdx fun s => nscore s == nscore l[i]) + 1
      else i + 1 := by
  have hnum_i : (l[i]).sgpa.isNum = true := hnum _ (List.getElem_mem hi)
  unfold rankAt
  rcases Nat.eq_zero_or_pos i with rfl | hpos
  · simp
  · have hip : i - 1 < l.length := by omega
    have hprev : l.get? (i - 1) = some l[i - 1] := by
      rw [List.get?_eq_getElem?, List.getElem?_eq_getElem hip]
    rw [if_pos hpos, hprev]
    have hnum_p : (l[i - 1]).sgpa.isNum = true := hnum _ (List.getElem_mem hip)
    simp only []
    rw [jsStrictEq_num_iff hnum_p hnum_i]
    by_cases heq : nscore l[i - 1] = nscore l[i]
    · rw [show (nscore l[i - 1] == nscore l[i]) = true from beq_iff_eq.mpr heq]
      rw [if_pos rfl]
      rw [if_pos (show 0 < i ∧ nscore l[i - 1] = nscore l[i] from ⟨hpos, heq⟩)]
      congr 1
      apply findIdx_congr_mem
      intro x hx
      exact jsStrictEq_num_iff (hnum x hx) hnum_i
    · rw [show (nscore l[i - 1] == nscore l[i]) = false from beq_eq_false_iff_ne.mpr heq]
      rw [if_neg (by simp)]
      rw [if_neg fun hc => heq hc.2]

lemma rankAt_eq_countP (l : List Student) (hnum : allNumScores l)
    (hs : l.Pairwise fun a b => nscore b ≤ nscore a) (i : Nat) (hi : i < l.length) :
    rankAt l i l[i] = (l.countP fun s => decide (nscore l[i] < nscore s)) + 1 := by
  rw [rankAt_eq_rule l hnum i hi]
  by_cases hcond : 0 < i ∧ nscore l[i - 1] = nscore l[i]
  · rw [if_pos hcond]
    congr 1
    exact findIdx_beq_eq_countP (nscore l[i]) l hs ⟨l[i], List.getElem_mem hi, rfl⟩
  · rw [if_neg hcond]
    congr 1
    symm
    apply countP_gt_eq_idx l hs i hi
    intro j hj
    rcases Nat.eq_zero_or_pos i with rfl | hpos
    · omega
    · have hip : i - 1 < l.length := by omega
      have hne : nscore l[i - 1] ≠ nscore l[i] := fun h => hcond ⟨hpos, h⟩
      have hle : nscore l[i] ≤ nscore l[i - 1] :=
        List.pairwise_iff_getElem.mp hs (i - 1) i hip hi (by omega)
      have hlt : nscore l[i] < nscore l[i - 1] := lt_of_le_of_ne hle fun h => hne h.symm
      rcases Nat.lt_or_ge j (i - 1) with hj1 | hj1
      · exact lt_of_lt_of_le hlt
          (List.pairwise_iff_getElem.mp hs j (i - 1) (by omega) hip hj1)
      · have hj2 : j = i - 1 := by omega
        subst hj2
        exact hlt


/-- Claim C1: on an all-numeric record list sorted by score descending, the
ranker gives index 0 rank 1 and index i > 0 the rank (first index with an
equal score) + 1 when tied with its predecessor, i + 1 otherwise; scores
[9.5, 9.5, 9.0, 8.0] rank [1, 1, 3, 4], [7.0, 7.0, 7.0] rank [1, 1, 1],
and [9.0] ranks [1]. -/
theorem C1_competition_ranking :
    (∀ (l : List Student), allNumScores l → scoreSortedDesc l →
      ∀ (i : Nat) (hi : i < l.length),
        (rankListOf l).getD i 0 =
          if 0 < i ∧ nscore l[i - 1] = nscore l[i]
          then (l.findIdx fun s => nscore s == nscore l[i]) + 1
          else i + 1) ∧
    rankListOf exRanks951 = [1, 1, 3, 4] ∧
    rankListOf exRanks700 = [1, 1, 1] ∧
    rankListOf exRanks900 = [1] := by
  refine ⟨fun l hnum _ i hi => ?_, by decide, by decide, by decide⟩
  rw [rankListOf_getD l i hi]
  exact rankAt_eq_rule l hnum i hi

/-- Witness for C1: the rank rule evaluated at index 2 of the [9.5, 9.5,
9.0, 8.0] example. -/
theorem C1_competition_ranking_witness :
    (rankListOf exRanks951).getD 2 0 = 3 := by
  rw [C1_competition_ranking.1 exRanks951 (by decide) (by decide) 2 (by decide)]
  decide

/-- Claim C3 (amended): on an all-numeric record list sorted by score
descending - the score-sorted view for which the spec defines ranking - the
rank sequence starts at 1 and is monotonically non-decreasing. -/
theorem C3_rank_monotonicity :
    ∀ (l : List Student), allNumScores l → scoreSortedDesc l →
      (0 < l.length → (rankListOf l).getD 0 0 = 1) ∧
      ∀ (i : Nat), i + 1 < l.length →
        (rankListOf l).getD i 0 ≤ (rankListOf l).getD (i + 1) 0 := by
  intro l hnum hs
  constructor
  · intro h0
    rw [rankListOf_getD l 0 h0]
    unfold rankAt
    simp
  · intro i hi1
    have hi : i < l.length := by omega
    rw [rankListOf_getD l i hi, rankListOf_getD l (i + 1) hi1,
      rankAt_eq_countP l hnum hs i hi, rankAt_eq_countP l hnum hs (i + 1) hi1]
    have hadj : nscore l[i + 1] ≤ nscore l[i] :=
      List.pairwise_iff_getElem.mp hs i (i + 1) hi hi1 (by omega)
    have hmono : (l.countP fun s => decide (nscore l[i] < nscore s)) ≤
        l.countP fun s => decide (nscore l[i + 1] < nscore s) :=
      List.countP_mono_left fun x hx hpx => by
        simp only [decide_eq_true_eq] at hpx ⊢
        exact lt_of_le_of_lt hadj hpx
    omega

/-- Witness for C3: first rank and adjacent monotonicity on a concrete
score-descending list. -/
theorem C3_rank_monotonicity_witness :
    (rankListOf exW3).getD 0 0 = 1 ∧
    (rankListOf exW3).getD 1 0 ≤ (rankListOf exW3).getD 2 0 :=
  ⟨(C3_rank_monotonicity exW3 (by decide) (by decide)).1 (by decide),
   (C3_rank_monotonicity exW3 (by decide) (by decide)).2 1 (by decide)⟩

/-- Counterexample for C3 as stated: sorting by name ascending with scores
9, 8, 9, 9 ranks the view [1, 2, 3, 1], which decreases at the last step. -/
theorem C3_counterexample :
    rankListOf (sortedStudents .name .asc (filteredStudents exC3 "")) = [1, 2, 3, 1] ∧
    ¬ List.Pairwise (fun a b : Nat => a ≤ b)
        (rankListOf (sortedStudents .name .asc (filteredStudents exC3 ""))) := by
  have hf : filteredStudents exC3 "" = exC3 := by decide
  rw [hf]
  have hs : sortedStudents .name .asc exC3 = exC3 := List.mergeSort_of_sorted (by decide)
  rw [hs]
  exact ⟨by decide, by decide⟩

/-- Claim C4 (amended): on an all-numeric score-descending list, record i
shares the rank of record i-1 exactly when their numeric scores are equal;
but the tie test is JS strict equality on the raw sgpa values, so equal
canonical numeric values in different representations are not tied. -/
theorem C4_tie_exact_value :
    ∀ (l : List Student), allNumScores l → scoreSortedDesc l →
      ∀ (i : Nat) (hi : i < l.length), 0 < i →
        ((rankListOf l).getD i 0 = (rankListOf l).getD (i - 1) 0 ↔
          nscore l[i - 1] = nscore l[i]) := by
  intro l hnum hs i hi hpos
  have hip : i - 1 < l.length := by omega
  rw [rankListOf_getD l i hi, rankListOf_getD l (i - 1) hip,
    rankAt_eq_countP l hnum hs i hi, rankAt_eq_countP l hnum hs (i - 1) hip]
  constructor
  · intro hrk
    by_contra hne
    have hle : nscore l[i] ≤ nscore l[i - 1] :=
      List.pairwise_iff_getElem.mp hs (i - 1) i hip hi (by omega)
    have hlt : nscore l[i] < nscore l[i - 1] := lt_of_le_of_ne hle fun h => hne h.symm
    have hcnt_i : (l.countP fun s => decide (nscore l[i] < nscore s)) = i := by
      apply countP_gt_eq_idx l hs i hi
      intro j hj
      rcases Nat.lt_or_ge j (i - 1) with hj1 | hj1
      · exact lt_of_lt_of_le hlt
          (List.pairwise_iff_getElem.mp hs j (i - 1) (by omega) hip hj1)
      · have hj2 : j = i - 1 := by omega
        subst hj2
        exact hlt
    have hcnt_p : (l.countP fun s => decide (nscore l[i - 1] < nscore s)) ≤ i - 1 :=
      countP_gt_le_idx l hs (i - 1) hip
    omega
  · intro heq
    rw [heq]

/-- Witness for C4: the tie criterion at index 1 of two records tied at
numeric score 7. -/
theorem C4_tie_exact_value_witness :
    (rankListOf exW4).getD 1 0 = (rankListOf exW4).getD 0 0 ↔
      nscore (exW4.get ⟨0, by decide⟩) = nscore (exW4.get ⟨1, by decide⟩) :=
  C4_tie_exact_value exW4 (by decide) (by decide) 1 (by decide) (by decide)

/-- Counterexample for C4 as stated: the string score "9.5" and the number
9.5 have equal canonical numeric values, the two-record list is a fixed
point of the score-descending sort, yet the ranker does not treat them as
tied (ranks [1, 2], not [1, 1]). -/
theorem C4_counterexample :
    toNumber (JVal.str "9.5") = toNumber (JVal.num (mkRat 19 2)) ∧
    sortedStudents .sgpa .desc exC4 = exC4 ∧
    rankListOf exC4 = [1, 2] ∧
    (rankListOf exC4).getD 1 0 ≠ (rankListOf exC4).getD 0 0 :=
  ⟨by decide, List.mergeSort_of_sorted (by decide), by decide, by decide⟩

lemma strLtB_asymm : ∀ {a b : List Char}, strLtB a b = true → strLtB b a = false
  | [], [], h => by simp [strLtB] at h
  | [], _ :: _, _ => by simp [strLtB]
  | _ :: _, [], h => by simp [strLtB] at h
  | a :: as, b :: bs, h => by
    simp only [strLtB] at h ⊢
    rcases lt_trichotomy a b with hab | hab | hab
    · rw [if_neg (lt_asymm hab), if_pos hab]
    · subst hab
      rw [if_neg (lt_irrefl a), if_neg (lt_irrefl a)] at h ⊢
      exact strLtB_asymm h
    · rw [if_neg (lt_asymm hab), if_pos hab] at h
      exact absurd h (by simp)

lemma strLtB_or_eq : ∀ (a b : List Char), strLtB a b = true ∨ strLtB b a = true ∨ a = b
  | [], [] => Or.inr (Or.inr rfl)
  | [], _ :: _ => Or.inl (by simp [strLtB])
  | _ :: _, [] => Or.inr (Or.inl (by simp [strLtB]))
  | a :: as, b :: bs => by
    rcases lt_trichotomy a b with hab | hab | hab
    · exact Or.inl (by simp [strLtB, hab])
    · subst hab
      rcases strLtB_or_eq as bs with h | h | h
      · exact Or.inl (by simp [strLtB, lt_irrefl, h])
      · exact Or.inr (Or.inl (by simp [strLtB, lt_irrefl, h]))
      · exact Or.inr (Or.inr (by rw [h]))
    · exact Or.inr (Or.inl (by simp [strLtB, hab, lt_asymm hab]))

lemma strLtB_trans : ∀ {a b c : List Char},
    strLtB a b = true → strLtB b c = true → strLtB a c = true
  | [], b, c, h1, h2 => by
    cases b with
    | nil => simp [strLtB] at h1
    | cons x xs =>
      cases c with
      | nil => simp [strLtB] at h2
      | cons y ys => simp [strLtB]
  | a :: as, b, c, h1, h2 => by
    cases b with
    | nil => simp [strLtB] at h1
    | cons x xs =>
      cases c with
      | nil => simp [strLtB] at h2
      | cons y ys =>
        simp only [strLtB] at h1 h2 ⊢
        rcases lt_trichotomy a x with hax | hax | hax
        · rcases lt_trichotomy x y with hxy | hxy | hxy
          · rw [if_pos (lt_trans hax hxy)]
          · subst hxy
            rw [if_pos hax]
          · rw [if_neg (lt_asymm hxy), if_pos hxy] at h2
            exact absurd h2 (by simp)
        · subst hax
          rw [if_neg (lt_irrefl a), if_neg (lt_irrefl a)] at h1
          rcases lt_trichotomy a y with hay | hay | hay
          · rw [if_pos hay]
          · subst hay
            rw [if_neg (lt_irrefl a), if_neg (lt_irrefl a)] at h2 ⊢
            exact strLtB_trans h1 h2
          · rw [if_neg (lt_asymm hay), if_pos hay] at h2
            exact absurd h2 (by simp)
        · rw [if_neg (lt_asymm hax), if_pos hax] at h1
          exact absurd h1 (by simp)

lemma not_strLtB_trans {x y z : List Char}
    (h1 : strLtB x y = false) (h2 : strLtB y z = false) : strLtB x z = false := by
  by_contra h
  rw [Bool.not_eq_false] at h
  rcases strLtB_or_eq x y with hxy | hyx | heq
  · rw [hxy] at h1
    cases h1
  · have := strLtB_trans hyx h
    rw [this] at h2
    cases h2
  · subst heq
    rw [h] at h2
    cases h2

lemma numLtB_asymm : ∀ {x y : Option ℚ}, numLtB x y = true → numLtB y x = false
  | some a, some b, h => by
    simp only [numLtB, decide_eq_true_eq] at h
    simp [numLtB, not_lt, le_of_lt h]
  | some _, none, h => by simp [numLtB] at h
  | none, _, h => by rw [numLtB_none_left] at h; cases h

lemma cmpPattern_total (u v : Bool) (h : u = true → v = false) :
    (decide ((if u then (1 : Int) else if v then -1 else 0) ≤ 0) ||
      decide ((if v then (1 : Int) else if u then -1 else 0) ≤ 0)) = true := by
  cases hu : u
  · cases v <;> rfl
  · rw [h hu]
    rfl

lemma cmpPattern_le_iff (u v : Bool) :
    decide ((if u then (1 : Int) else if v then -1 else 0) ≤ 0) = !u := by
  cases u <;> cases v <;> rfl

lemma cmpLe_total (key : SortKey) (ord : SortOrder) (a b : Student) :
    (cmpLe key ord a b || cmpLe key ord b a) = true := by
  unfold cmpLe jsCompare
  by_cases hk : key = SortKey.sgpa
  · rw [if_pos hk, if_pos hk]
    cases ord
    · exact cmpPattern_total _ _ numLtB_asymm
    · exact cmpPattern_total _ _ numLtB_asymm
  · rw [if_neg hk, if_neg hk]
    cases ord
    · exact cmpPattern_total _ _ strLtB_asymm
    · exact cmpPattern_total _ _ strLtB_asymm

lemma cmpLe_str_trans (key : SortKey) (ord : SortOrder) (hk : key ≠ SortKey.sgpa) :
    ∀ a b c : Student, cmpLe key ord a b = true → cmpLe key ord b c = true →
      cmpLe key ord a c = true := by
  intro a b c h1 h2
  unfold cmpLe jsCompare at h1 h2 ⊢
  rw [if_neg hk] at h1 h2 ⊢
  cases ord
  · rw [cmpPattern_le_iff, Bool.not_eq_eq_eq_not, Bool.not_true] at h1 h2 ⊢
    exact not_strLtB_trans h2 h1
  · rw [cmpPattern_le_iff, Bool.not_eq_eq_eq_not, Bool.not_true] at h1 h2 ⊢
    exact not_strLtB_trans h1 h2

lemma sort_stable_of_trans (key : SortKey) (ord : SortOrder)
    (htrans : ∀ a b c : Student, cmpLe key ord a b = true → cmpLe key ord b c = true →
      cmpLe key ord a c = true)
    (l : List Student) (a b : Student)
    (hsub : List.Sublist [a, b] l) (heq : jsCompare key ord a b = 0) :
    List.Sublist [a, b] (sortedStudents key ord l) := by
  have hab : cmpLe key ord a b = true := by
    unfold cmpLe
    rw [heq]
    rfl
  unfold sortedStudents
  exact List.sublist_mergeSort htrans (fun x y => cmpLe_total key ord x y)
    (by simp [List.pairwise_cons, hab]) hsub

lemma mergeSort_cons_cons (le : Student → Student → Bool) (a b : Student) (xs : List Student) :
    (a :: b :: xs).mergeSort le =
      List.merge ((List.splitInTwo ⟨a :: b :: xs, rfl⟩).1.val.mergeSort le)
        ((List.splitInTwo ⟨a :: b :: xs, rfl⟩).2.val.mergeSort le) le := by
  rw [List.mergeSort]

lemma merge_congr {le le' : Student → Student → Bool} :
    ∀ (xs ys : List Student), (∀ a ∈ xs, ∀ b ∈ ys, le a b = le' a b) →
      List.merge xs ys le = List.merge xs ys le'
  | [], ys, _ => by simp
  | x :: xs, [], _ => by simp
  | x :: xs, y :: ys, h => by
    simp only [List.merge]
    rw [h x (List.mem_cons_self x xs) y (List.mem_cons_self y ys)]
    by_cases hxy : le' x y = true
    · rw [if_pos hxy, if_pos hxy,
        merge_congr xs (y :: ys) fun a ha b hb => h a (List.mem_cons_of_mem x ha) b hb]
    · rw [if_neg hxy, if_neg hxy,
        merge_congr (x :: xs) ys fun a ha b hb => h a ha b (List.mem_cons_of_mem y hb)]
termination_by xs ys => xs.length + ys.length

lemma mergeSort_congr {le le' : Student → Student → Bool} :
    ∀ (l : List Student), (∀ a ∈ l, ∀ b ∈ l, le a b = le' a b) →
      l.mergeSort le = l.mergeSort le'
  | [], _ => by simp
  | [a], _ => by simp
  | a :: b :: xs, h => by
    have hlen1 : (List.splitInTwo ⟨a :: b :: xs, rfl⟩).1.val.length < xs.length + 1 + 1 := by
      simp [List.splitInTwo_fst]
      omega
    have hlen2 : (List.splitInTwo ⟨a :: b :: xs, rfl⟩).2.val.length < xs.length + 1 + 1 := by
      simp [List.splitInTwo_snd]
      omega
    have hfst : ∀ y ∈ (List.splitInTwo ⟨a :: b :: xs, rfl⟩).1.val, y ∈ a :: b :: xs := by
      intro y hy
      rw [List.splitInTwo_fst] at hy
      exact (List.take_sublist _ _).subset hy
    have hsnd : ∀ y ∈ (List.splitInTwo ⟨a :: b :: xs, rfl⟩).2.val, y ∈ a :: b :: xs := by
      intro y hy
      rw [List.splitInTwo_snd] at hy
      exact (List.drop_sublist _ _).subset hy
    rw [mergeSort_cons_cons le, mergeSort_cons_cons le']
    rw [mergeSort_congr (List.splitInTwo ⟨a :: b :: xs, rfl⟩).1.val
        fun x hx y hy => h x (hfst x hx) y (hfst y hy),
      mergeSort_congr (List.splitInTwo ⟨a :: b :: xs, rfl⟩).2.val
        fun x hx y hy => h x (hsnd x hx) y (hsnd y hy)]
    apply merge_congr
    intro x hx y hy
    exact h x (hfst x (List.mem_mergeSort.mp hx)) y (hsnd y (List.mem_mergeSort.mp hy))
termination_by l => l.length

lemma cmpLe_sgpa_coercible (ord : SortOrder) (a b : Student)
    (ha : (toNumber a.sgpa).isSome = true) (hb : (toNumber b.sgpa).isSome = true) :
    cmpLe .sgpa ord a b =
      (match ord with
        | .asc => decide (nscore a ≤ nscore b)
        | .desc => decide (nscore b ≤ nscore a)) := by
  obtain ⟨qa, hqa⟩ := Option.isSome_iff_exists.mp ha
  obtain ⟨qb, hqb⟩ := Option.isSome_iff_exists.mp hb
  have hva : toNumber (fieldVal .sgpa a) = some qa := hqa
  have hvb : toNumber (fieldVal .sgpa b) = some qb := hqb
  have hna : nscore a = qa := by simp [nscore, hqa]
  have hnb : nscore b = qb := by simp [nscore, hqb]
  unfold cmpLe jsCompare
  rw [if_pos rfl]
  cases ord
  · rw [cmpPattern_le_iff, hva, hvb, hna, hnb]
    simp only [numLtB]
    by_cases h : qb < qa
    · simp [h, not_le.mpr h]
    · simp [h, not_lt.mp h]
  · rw [cmpPattern_le_iff, hva, hvb, hna, hnb]
    simp only [numLtB]
    by_cases h : qa < qb
    · simp [h, not_le.mpr h]
    · simp [h, not_lt.mp h]

lemma strLtB_self (a : List Char) : strLtB a a = false := by
  by_contra h
  rw [Bool.not_eq_false] at h
  have h2 := strLtB_asymm h
  rw [h] at h2
  cases h2

lemma strLtB_eq_of_not {a b : List Char}
    (h1 : strLtB a b = false) (h2 : strLtB b a = false) : a = b := by
  rcases strLtB_or_eq a b with h | h | h
  · rw [h] at h1
    cases h1
  · rw [h] at h2
    cases h2
  · exact h

lemma cmpPattern_spec (u v : Bool) (huv : u = true → v = false) :
    ((if u then (1 : Int) else if v then -1 else 0) < 0 ↔ v = true) ∧
    (0 < (if u then (1 : Int) else if v then -1 else 0) ↔ u = true) ∧
    ((if u then (1 : Int) else if v then -1 else 0) = 0 ↔ u = false ∧ v = false) := by
  cases hu : u
  · cases hv : v <;> decide
  · have hv : v = false := huv hu
    subst hv
    decide

lemma decideLt_asymm (x y : ℚ) (h : decide (x < y) = true) : decide (y < x) = false := by
  simp only [decide_eq_true_eq] at h
  simp [not_lt.mpr (le_of_lt h)]

lemma consistent_of_str (key : SortKey) (ord : SortOrder) (hk : key ≠ SortKey.sgpa)
    (l : List Student) : consistentComparator key ord l := by
  constructor
  · intro a _ b _
    unfold jsCompare
    rw [if_neg hk, if_neg hk]
    cases ord
    · refine ⟨Iff.trans (cmpPattern_spec _ _ strLtB_asymm).1
        ((cmpPattern_spec _ _ strLtB_asymm).2.1).symm, ?_⟩
      exact Iff.trans (cmpPattern_spec _ _ strLtB_asymm).2.2
        (Iff.trans and_comm ((cmpPattern_spec _ _ strLtB_asymm).2.2).symm)
    · refine ⟨Iff.trans (cmpPattern_spec _ _ strLtB_asymm).1
        ((cmpPattern_spec _ _ strLtB_asymm).2.1).symm, ?_⟩
      exact Iff.trans (cmpPattern_spec _ _ strLtB_asymm).2.2
        (Iff.trans and_comm ((cmpPattern_spec _ _ strLtB_asymm).2.2).symm)
  · intro a _ b _ c _
    unfold jsCompare
    rw [if_neg hk, if_neg hk, if_neg hk]
    cases ord
    · constructor
      · intro h1 h2
        exact (cmpPattern_spec _ _ strLtB_asymm).1.mpr
          (strLtB_trans ((cmpPattern_spec _ _ strLtB_asymm).1.mp h1)
            ((cmpPattern_spec _ _ strLtB_asymm).1.mp h2))
      · intro h1 h2
        obtain ⟨f1, f2⟩ := (cmpPattern_spec _ _ strLtB_asymm).2.2.mp h1
        obtain ⟨f3, f4⟩ := (cmpPattern_spec _ _ strLtB_asymm).2.2.mp h2
        have eab := strLtB_eq_of_not f2 f1
        have ebc := strLtB_eq_of_not f4 f3
        apply (cmpPattern_spec _ _ strLtB_asymm).2.2.mpr
        rw [eab, ebc]
        exact ⟨strLtB_self _, strLtB_self _⟩
    · constructor
      · intro h1 h2
        exact (cmpPattern_spec _ _ strLtB_asymm).1.mpr
          (strLtB_trans ((cmpPattern_spec _ _ strLtB_asymm).1.mp h2)
            ((cmpPattern_spec _ _ strLtB_asymm).1.mp h1))
      · intro h1 h2
        obtain ⟨f1, f2⟩ := (cmpPattern_spec _ _ strLtB_asymm).2.2.mp h1
        obtain ⟨f3, f4⟩ := (cmpPattern_spec _ _ strLtB_asymm).2.2.mp h2
        have eab := strLtB_eq_of_not f1 f2
        have ebc := strLtB_eq_of_not f3 f4
        apply (cmpPattern_spec _ _ strLtB_asymm).2.2.mpr
        rw [eab, ebc]
        exact ⟨strLtB_self _, strLtB_self _⟩

lemma consistent_of_coercible (ord : SortOrder) (l : List Student)
    (hco : allCoercibleScores l) : consistentComparator .sgpa ord l := by
  have hval : ∀ s ∈ l, ∃ q, toNumber (fieldVal .sgpa s) = some q := fun s hs =>
    Option.isSome_iff_exists.mp (hco s hs)
  constructor
  · intro a ha b hb
    obtain ⟨qa, hqa⟩ := hval a ha
    obtain ⟨qb, hqb⟩ := hval b hb
    unfold jsCompare
    rw [if_pos rfl, if_pos rfl]
    cases ord <;>
    · rw [hqa, hqb]
      simp only [numLtB]
      refine ⟨Iff.trans (cmpPattern_spec _ _ (decideLt_asymm _ _)).1
        ((cmpPattern_spec _ _ (decideLt_asymm _ _)).2.1).symm, ?_⟩
      exact Iff.trans (cmpPattern_spec _ _ (decideLt_asymm _ _)).2.2
        (Iff.trans and_comm ((cmpPattern_spec _ _ (decideLt_asymm _ _)).2.2).symm)
  · intro a ha b hb c hc
    obtain ⟨qa, hqa⟩ := hval a ha
    obtain ⟨qb, hqb⟩ := hval b hb
    obtain ⟨qc, hqc⟩ := hval c hc
    unfold jsCompare
    rw [if_pos rfl, if_pos rfl, if_pos rfl]
    cases ord <;>
    · rw [hqa, hqb, hqc]
      simp only [numLtB]
      constructor
      · intro h1 h2
        have e1 := (cmpPattern_spec _ _ (decideLt_asymm _ _)).1.mp h1
        have e2 := (cmpPattern_spec _ _ (decideLt_asymm _ _)).1.mp h2
        apply (cmpPattern_spec _ _ (decideLt_asymm _ _)).1.mpr
        simp only [decide_eq_true_eq] at e1 e2 ⊢
        linarith
      · intro h1 h2
        obtain ⟨f1, f2⟩ := (cmpPattern_spec _ _ (decideLt_asymm _ _)).2.2.mp h1
        obtain ⟨f3, f4⟩ := (cmpPattern_spec _ _ (decideLt_asymm _ _)).2.2.mp h2
        rw [decide_eq_false_iff_not, not_lt] at f1 f2 f3 f4
        have eab := le_antisymm f1 f2
        have ebc := le_antisymm f3 f4
        apply (cmpPattern_spec _ _ (decideLt_asymm _ _)).2.2.mpr
        constructor <;>
        · rw [decide_eq_false_iff_not, not_lt]
          linarith

/-- Claim C6 (amended): `Array.prototype.sort` guarantees a stable outcome
exactly when the comparator is consistent on the array. Under every outcome
the sort contract permits, two records the comparator calls equal keep their
input order whenever the active key is usn or name, and for the sgpa key
whenever every score in the list coerces to a number (numeric strings
included). A non-coercible score makes the sgpa comparator inconsistent; the
sort order is then implementation-defined and stability is not guaranteed. -/
theorem C6_sort_stability :
    (∀ (key : SortKey) (ord : SortOrder), key ≠ SortKey.sgpa →
      ∀ (l out : List Student) (a b : Student), List.Sublist [a, b] l →
        jsCompare key ord a b = 0 → jsSortOutcomes key ord l out →
        List.Sublist [a, b] out) ∧
    (∀ (ord : SortOrder) (l out : List Student), allCoercibleScores l →
      ∀ a b : Student, List.Sublist [a, b] l →
        jsCompare .sgpa ord a b = 0 → jsSortOutcomes .sgpa ord l out →
        List.Sublist [a, b] out) := by
  constructor
  · intro key ord hk l out a b hsub heq hout
    rcases hout with ⟨_, rfl⟩ | ⟨hnc, _⟩
    · exact sort_stable_of_trans key ord (cmpLe_str_trans key ord hk) l a b hsub heq
    · exact absurd (consistent_of_str key ord hk l) hnc
  · intro ord l out hco a b hsub heq hout
    rcases hout with ⟨_, rfl⟩ | ⟨hnc, _⟩
    · have hab : cmpLe .sgpa ord a b = true := by
        unfold cmpLe
        rw [heq]
        rfl
      have ha : (toNumber a.sgpa).isSome = true :=
        hco a (hsub.subset (List.mem_cons_self a [b]))
      have hb : (toNumber b.sgpa).isSome = true :=
        hco b (hsub.subset (List.mem_cons_of_mem a (List.mem_cons_self b [])))
      unfold sortedStudents
      rw [mergeSort_congr l fun x hx y hy =>
        cmpLe_sgpa_coercible ord x y (hco x hx) (hco y hy)]
      cases ord
      · refine List.sublist_mergeSort ?_ ?_ ?_ hsub
        · intro x y z h1 h2
          simp only [decide_eq_true_eq] at h1 h2 ⊢
          exact le_trans h1 h2
        · intro x y
          rcases le_total (nscore x) (nscore y) with h | h <;> simp [h]
        · rw [cmpLe_sgpa_coercible .asc a b ha hb] at hab
          simp only [List.pairwise_cons]
          refine ⟨?_, by simp⟩
          intro y hy
          rw [List.mem_singleton] at hy
          subst hy
          exact hab
      · refine List.sublist_mergeSort ?_ ?_ ?_ hsub
        · intro x y z h1 h2
          simp only [decide_eq_true_eq] at h1 h2 ⊢
          exact le_trans h2 h1
        · intro x y
          rcases le_total (nscore x) (nscore y) with h | h <;> simp [h]
        · rw [cmpLe_sgpa_coercible .desc a b ha hb] at hab
          simp only [List.pairwise_cons]
          refine ⟨?_, by simp⟩
          intro y hy
          rw [List.mem_singleton] at hy
          subst hy
          exact hab
    · exact absurd (consistent_of_coercible ord l hco) hnc

/-- Witness for C6: stability applied to every permitted outcome of a
concrete usn-ascending sort with two case-folded-equal usns, and of a
concrete score-descending sort whose two equal scores are the numeric
string `"9.5"` (coercible but not number-typed). -/
theorem C6_sort_stability_witness :
    List.Sublist [wStA, wStB] (sortedStudents .usn .asc [wStA, wStB, wStC]) ∧
    List.Sublist [(⟨"s1", "a", .str "9.5"⟩ : Student), ⟨"s2", "b", .str "9.5"⟩]
      (sortedStudents .sgpa .desc [⟨"s1", "a", .str "9.5"⟩, ⟨"s2", "b", .str "9.5"⟩]) :=
  ⟨C6_sort_stability.1 .usn .asc (by decide) [wStA, wStB, wStC]
      (sortedStudents .usn .asc [wStA, wStB, wStC]) wStA wStB
      (by decide) (by decide) (Or.inl ⟨by decide, rfl⟩),
   C6_sort_stability.2 .desc [⟨"s1", "a", .str "9.5"⟩, ⟨"s2", "b", .str "9.5"⟩]
      (sortedStudents .sgpa .desc [⟨"s1", "a", .str "9.5"⟩, ⟨"s2", "b", .str "9.5"⟩])
      (by decide) ⟨"s1", "a", .str "9.5"⟩ ⟨"s2", "b", .str "9.5"⟩
      (by decide) (by decide) (Or.inl ⟨by decide, rfl⟩)⟩

/-- Counterexample for C6 as stated: with scores [5, "abc", 9] descending the
comparator is inconsistent (it calls 5 equal to "abc" and "abc" equal to 9
while ordering 5 strictly below 9), so the sort contract permits any
permutation of the input; the permitted outcome [9, 5, "abc"] reverses the
equal-comparing pair ("abc", 9), so the code does not guarantee stability at
this input. -/
theorem C6_counterexample :
    jsCompare .sgpa .desc stuNaN stuN9 = 0 ∧
    List.Sublist [stuNaN, stuN9] exC6 ∧
    jsSortOutcomes .sgpa .desc exC6 [stuN9, stuN5, stuNaN] ∧
    ¬ (∀ out : List Student, jsSortOutcomes .sgpa .desc exC6 out →
        List.Sublist [stuNaN, stuN9] out) := by
  have hperm : jsSortOutcomes .sgpa .desc exC6 [stuN9, stuN5, stuNaN] :=
    Or.inr ⟨by decide, by decide⟩
  exact ⟨by decide, by decide, hperm, fun h => absurd (h _ hperm) (by decide)⟩

end ResultScraper
